import Mathlib

/-!
# Verification of the `loadtestx/workerclient` execution engine

This file gives a shallow embedding, in Lean 4, of the parts of the
`workerclient` Go package that the specification's claims are about:

* the `Result` record type (`result.go`): `AcquireResult`, `Begin`, `End`,
  `AddSub`, and the `IResultV1` accessors used by the engine;
* the executor step loop (`test_case.go`, `TestCase.Run`): request-parameter
  construction with the reserved `__`-keys, conditional execution,
  sub-result flattening, per-step success folding and the
  abort-on-failure rule;
* the per-worker concurrency slicing (`worker_runner.go`,
  `WorkerRunner.RealRun`);
* the ramp-limiter configuration loop (`case_runner.go`, `CaseRunner.Run`);
* the streaming latency aggregator (`case_runner.go`,
  `CaseRunner.HandleOuput`): the `(key -> sketch)` map, minute rollover,
  `_integral` retention and the final flush on channel close.

Modelling conventions:

* Go `map[string]string` values are modelled as association lists
  `List (String × String)`; writing a key overwrites the first (and, by the
  construction used here, only) occurrence, and reading a missing key yields
  the Go zero value `""`.
* Wall-clock reads (`time.Now().UnixMilli()`, and the observed minute inside
  the aggregator loop) are explicit parameters: every call site of the clock
  in the source becomes one explicit argument of the embedded function.
* User callbacks (`GenReqParamsFunc`, `ExecWhenFunc`, `ReqPluginFunc`,
  `ContinueWhenFailed`) are opaque to the engine; a step's behaviour in one
  iteration is therefore modelled by the values those callbacks return.
* A T-digest sketch is modelled by the list of samples added to it
  (`v.Add(...)` appends); the claims settled here only concern *which*
  samples each sketch covers, not the internal centroid compression of the
  external `go-tdigest` library.
* Concurrency is out of scope: the executor loop is modelled in its
  steady state (the stop flag stays up and the output channel is attached),
  and the aggregator consumes its input stream as a list in channel order.
-/

namespace Workerclient

/-! ## Reserved parameter keys (`result.go`, `InnerVar*` constants) -/

def InnerVarName : String := "__name"
def InnerVarGoroutineId : String := "__goroutine_id"
def InnerVarExecutorIndex : String := "__executor_index"
def InnerVarWorkerTotal : String := "__worker_total"
def InnerVarWorkerIndex : String := "__worker_index"
def InnerVarWorkerSize : String := "__worker_size"

/-! ## Go string maps as association lists -/

/-- Go map read `m[k]`: first binding of `k`, or the zero value `""`. -/
def mapGet (m : List (String × String)) (k : String) : String :=
  ((m.find? (fun p => p.1 = k)).map Prod.snd).getD ""

/-- Go map key test `_, ok := m[k]`. -/
def mapHas (m : List (String × String)) (k : String) : Bool :=
  m.any (fun p => p.1 = k)

/-- Go map write `m[k] = v`: overwrite every binding of `k`, or append. -/
def mapSet (m : List (String × String)) (k v : String) : List (String × String) :=
  if mapHas m k then m.map (fun p => if p.1 = k then (p.1, v) else p)
  else m ++ [(k, v)]

/-! ## `Result` (`result.go`)

`Result.SubResults` holds further results, so the type is a nested
inductive; one constructor mirrors the Go struct field for field. -/

inductive ResultV1 : Type where
  | mk : (name : String) → (url : String) → (method : String) →
      (requestHeader : List (String × String)) → (requestBody : String) →
      (sentBytes : Int) → (responseCode : Int) →
      (responseHeader : List (String × String)) → (responseBody : String) →
      (receivedBytes : Int) → (failureMessage : String) → (success : Bool) →
      (beginTime : Int) → (endTime : Int) → (subResults : List ResultV1) →
      (subIndex : Int) → ResultV1

namespace ResultV1

def getName : ResultV1 → String
  | .mk n .. => n

def getResponseCode : ResultV1 → Int
  | .mk _ _ _ _ _ _ rc .. => rc

def isSuccess : ResultV1 → Bool
  | .mk _ _ _ _ _ _ _ _ _ _ _ s .. => s

def getBeginTime : ResultV1 → Int
  | .mk _ _ _ _ _ _ _ _ _ _ _ _ bt .. => bt

def getEndTime : ResultV1 → Int
  | .mk _ _ _ _ _ _ _ _ _ _ _ _ _ et .. => et

def getSubResults : ResultV1 → List ResultV1
  | .mk _ _ _ _ _ _ _ _ _ _ _ _ _ _ subs _ => subs

/-- Plugin-side field write `r.ResponseCode = rc`. -/
def setResponseCode : ResultV1 → Int → ResultV1
  | .mk n u m rh rb sb _ rsh rsb rcb fm s bt et subs si, rc =>
    .mk n u m rh rb sb rc rsh rsb rcb fm s bt et subs si

/-- Plugin-side field write `r.Success = s`. -/
def setSuccess : ResultV1 → Bool → ResultV1
  | .mk n u m rh rb sb rc rsh rsb rcb fm _ bt et subs si, s =>
    .mk n u m rh rb sb rc rsh rsb rcb fm s bt et subs si

/-- `Result.Begin`: stamps the begin time with the current clock. -/
def begin : ResultV1 → Int → ResultV1
  | .mk n u m rh rb sb rc rsh rsb rcb fm s _ et subs si, now =>
    .mk n u m rh rb sb rc rsh rsb rcb fm s now et subs si

/-- `Result.End`: sets `Success = (ResponseCode == 200)` and stamps the end
time with the current clock. -/
def recordEnd : ResultV1 → Int → ResultV1
  | .mk n u m rh rb sb rc rsh rsb rcb fm _ bt _ subs si, now =>
    -- source order: Success first, then EndTime; the begin time is untouched
    .mk n u m rh rb sb rc rsh rsb rcb fm (decide (rc = 200)) bt now subs si

end ResultV1

/-- `AcquireResult(name)`: a fresh record, all other fields at their Go zero
values; the source reads the clock twice in a row (`BeginTime` then
`EndTime`), so the two reads are the explicit arguments `t1` and `t2`. -/
def acquireResult (name : String) (t1 t2 : Int) : ResultV1 :=
  .mk name "" "" [] "" 0 0 [] "" 0 "" true t1 t2 [] 0

/-- `Result.AddSub(name, useNamePrefix)`: computes the child's name (auto
`"<parent>-<n>"` for an empty name, `"<parent>-<name>"` under the prefix
flag), acquires a child record (clock reads `t1`, `t2`) and appends it to
`SubResults`.  Returns the updated parent (whose last sub-result is the
child the Go version returns). -/
def ResultV1.addSub : ResultV1 → String → Bool → Int → Int → ResultV1
  | .mk n u m rh rb sb rc rsh rsb rcb fm s bt et subs si, name, useNamePrefix, t1, t2 =>
    let subName := if name = "" then n ++ "-" ++ toString si
      else if useNamePrefix then n ++ "-" ++ name else name
    let si' := if name = "" then si + 1 else si
    .mk n u m rh rb sb rc rsh rsb rcb fm s bt et
      (subs ++ [acquireResult subName t1 t2]) si'

/-! ## `CaseRunnerInfo` (`case_runner.go`) -/

structure CaseRunnerInfo where
  workerName : String
  maxConcurrencyInThisWoker : Nat
  rampingSeconds : Nat
  durationMinutes : Nat
  workerTotal : Nat
  workerIndex : Nat
  workerSize : Nat
deriving DecidableEq, Repr

/-- The per-executor `coroutineParams` map built in `CaseRunner.Run` for the
executor of index `i` (`case_runner.go`, the map literal before the
`go func` launch). -/
def coroutineParamsFor (caseName : String) (i : Nat) (info : CaseRunnerInfo) :
    List (String × String) :=
  [(InnerVarGoroutineId, caseName ++ "-" ++ toString i),
   (InnerVarExecutorIndex, toString i),
   (InnerVarWorkerTotal, toString info.workerTotal),
   (InnerVarWorkerIndex, toString info.workerIndex),
   (InnerVarWorkerSize, toString info.workerSize)]

/-! ## Executor step loop (`test_case.go`, `TestCase.Run`) -/

/-- The `reqParams` map handed to `ReqPluginFunc`: the map returned by
`GenReqParamsFunc`, with `__name` set to the step name and `__goroutine_id`
and `__executor_index` re-copied from `coroutineParams` (`test_case.go`,
the three assignments after `GenReqParamsFunc`). -/
def buildReqParams (gen coroutineParams : List (String × String))
    (stepName : String) : List (String × String) :=
  mapSet (mapSet (mapSet gen InnerVarName stepName)
      InnerVarGoroutineId (mapGet coroutineParams InnerVarGoroutineId))
    InnerVarExecutorIndex (mapGet coroutineParams InnerVarExecutorIndex)

/-- The record list reported for one plugin invocation: the plugin's record
alone when it has no sub-results, otherwise exactly its sub-results
(`test_case.go`, the `results` construction). -/
def flattenResults (res : ResultV1) : List ResultV1 :=
  if res.getSubResults.isEmpty then [res] else res.getSubResults

/-- The per-step `ok` flag: `ok = result.IsSuccess() && ok`, starting from
`true`, folded over the reported records (`test_case.go`). -/
def stepOk (records : List ResultV1) : Bool :=
  records.foldl (fun ok r => r.isSuccess && ok) true

/-- One step of a case, as the engine sees it during one iteration: its
static data (`StepName`, `ContinueWhenFailed`) plus the values its opaque
callbacks return in that iteration. -/
structure StepExec where
  stepName : String
  execWhen : Bool
  pluginResult : ResultV1
  continueWhenFailed : Bool

/-- One iteration of the inner `for _, ts := range tc.Teststeps` loop of
`TestCase.Run`, with the stop flag up throughout: yields the executed steps
in order, each paired with the records reported for it (each reported
record goes through `PostFunc` and is pushed onto the output channel).
A step with `execWhen = false` is skipped; after a step whose `ok` flag is
false and whose `ContinueWhenFailed` is false, the loop breaks. -/
def runIteration : List StepExec → List (StepExec × List ResultV1)
  | [] => []
  | s :: rest =>
    if s.execWhen then
      let records := flattenResults s.pluginResult
      if !stepOk records && !s.continueWhenFailed then [(s, records)]
      else (s, records) :: runIteration rest
    else runIteration rest

/-- `n` iterations of the outer loop of `TestCase.Run`: every iteration
re-enters the step loop at step 0. -/
def runCase (steps : List StepExec) : Nat → List (StepExec × List ResultV1)
  | 0 => []
  | n + 1 => runCase steps n ++ runIteration steps

/-! ## Machine integers

The worker-runner slice and the ramp loop compute on Go machine integers
(`uint64`, `int64`, and `time.Duration`, an `int64` count of nanoseconds),
whose conversions and arithmetic wrap; `toInt64` and `toUint64` are those
wrapping conversions on unbounded integers. -/

/-- Go conversion to `int64`: reduce modulo `2^64` into `[-2^63, 2^63)`.
Because `toInt64 x` is congruent to `x` modulo `2^64`, a chain of wrapping
`int64` additions equals one `toInt64` of the exact sum. -/
def toInt64 (x : Int) : Int :=
  (x + 2 ^ 63) % 2 ^ 64 - 2 ^ 63

/-- Go conversion to `uint64`: reduce modulo `2^64` into `[0, 2^64)`. -/
def toUint64 (x : Int) : Nat :=
  (x % 2 ^ 64).toNat

/-! ## Worker concurrency slice (`worker_runner.go`, `WorkerRunner.RealRun`) -/

/-- The `shouldRunCase` slice computation of `RealRun`, for
`totalMaxConcurrency`, `workerConcurrency` (both `uint64` values) and the
assigned `int64` worker index: the source converts both `uint64` fields
through `int64` (wrapping), computes
`remaining := rmc - workerConc * widx` in wrapping `int64` arithmetic,
returns without starting anything when `remaining <= 0` (`none`; no Case
Runner started, worker not marked running), and otherwise hands the
started Case Runner `uint64(remaining)` when `remaining < workerConc`,
else `uint64(workerConc)` (the worker being marked `running`). -/
def realRunSlice (totalMax workerConc : Nat) (widx : Int) : Option Nat :=
  let rmc : Int := toInt64 totalMax
  let wc : Int := toInt64 workerConc
  let remaining : Int := toInt64 (rmc - toInt64 (wc * widx))
  if remaining ≤ 0 then none
  else if remaining < wc then some (toUint64 remaining)
  else some (toUint64 wc)

/-- The spec's slicing formula, written from the spec's words:
`effective(T,C,i) = max(0, min(C, T − C·i))`. -/
def effectiveSpec (totalMax workerConc : Int) (widx : Int) : Int :=
  max 0 (min workerConc (totalMax - workerConc * widx))

/-! ## Ramp limiter configuration (`case_runner.go`, `CaseRunner.Run`) -/

/-- `uint64(rampingLimitDuration / time.Second)` for a window of `w`
seconds: the duration is accumulated in an `int64` nanosecond count by
repeated wrapping additions of `time.Second` (so after `w` steps it is
`toInt64 (10^9 * w)`), divided by `time.Second` with Go's
truncated `int64` division, then converted to `uint64`. -/
def machineWindowCount (w : Nat) : Nat :=
  toUint64 ((toInt64 (1000000000 * (w : Int))).tdiv 1000000000)

/-- The launch budget the loop computes for a window of `w` seconds:
`MaxConcurrencyInThisWoker * uint64(duration/time.Second) / RampingSeconds`
with the wrapping `uint64` multiplication (`n` is a `uint64` field, so
`n < 2^64`; the first check, `n / r` before any widening, coincides with
this expression at `w = 1`). -/
def rampBudget (n r w : Nat) : Nat :=
  n * machineWindowCount w % 2 ^ 64 / r

/-- The budget-widening loop of `CaseRunner.Run` for `RampingSeconds > 0`:
starting from a window of `w` seconds, keep widening by one second until
the machine budget `rampBudget n r w` is positive, returning that window
width in (exact) seconds.  The Go loop is unbounded; `fuel` bounds the
number of loop entries so the model stays total, and `none` means the loop
did not exit within `fuel` checks. -/
def rampWiden (n r : Nat) : Nat → Nat → Option Nat
  | 0, _ => none
  | fuel + 1, w =>
    if 0 < rampBudget n r w then some w else rampWiden n r fuel (w + 1)

/-- The ramp limiter parameters `(rampingLimit, rampingLimitDuration)` of
`CaseRunner.Run`, the duration an `int64` count of nanoseconds:
`(10000, 10ms)` when `RampingSeconds = 0`, otherwise the widening loop
starting at a one-second window, with the machine budget and the wrapped
`int64` duration for the window it settles on. -/
def rampConfig (n r fuel : Nat) : Option (Nat × Int) :=
  if r = 0 then some (10000, 10000000)
  else match rampWiden n r fuel 1 with
    | some w => some (rampBudget n r w, toInt64 (1000000000 * (w : Int)))
    | none => none

/-! ## Aggregator (`case_runner.go`, `CaseRunner.HandleOuput`)

The `map[CallTimeMapKey]*tdigest.TDigest` is an association list whose
values are the lists of samples added (`v.Add(latency)` appends); `emitted`
collects the batches sent over `MetricsChan`, in order. -/

/-- `CallTimeMapKey` (`types.go`), field for field. -/
structure CallTimeMapKey where
  taskId : String
  metricName : String
  isWholeCase : Bool
  workerName : String
  caseName : String
  stepName : String
  success : Bool
  statusCode : Int
  ts : Int
deriving DecidableEq, Repr

/-- `strings.HasSuffix(s, suffix)`, on the character lists of the two
strings (kept executable down to the kernel). -/
def strHasSuffix (s suffix : String) : Bool :=
  suffix.data.isSuffixOf s.data

/-- `strings.HasSuffix(k.MetricName, "_integral")`: the keys whose sketches
survive a minute rollover. -/
def isIntegral (k : CallTimeMapKey) : Bool :=
  strHasSuffix k.metricName "_integral"

/-- The latency merged into each sketch: `res.GetEndTime() - res.GetBeginTime()`
(milliseconds). -/
def latency (res : ResultV1) : Int :=
  res.getEndTime - res.getBeginTime

/-- The four keys synthesized for one incoming record (`HandleOuput`):
metric `step_call` / `step_call_integral` crossed with whole-case
(`StepName = "_NONE_"`) / per-step scope; `TaskId` and `Ts` are left at
their zero values. -/
def recKeys (workerName caseName : String) (res : ResultV1) :
    List CallTimeMapKey :=
  [{ taskId := "", metricName := "step_call", isWholeCase := true,
     workerName := workerName, caseName := caseName, stepName := "_NONE_",
     success := res.isSuccess, statusCode := res.getResponseCode, ts := 0 },
   { taskId := "", metricName := "step_call_integral", isWholeCase := true,
     workerName := workerName, caseName := caseName, stepName := "_NONE_",
     success := res.isSuccess, statusCode := res.getResponseCode, ts := 0 },
   { taskId := "", metricName := "step_call", isWholeCase := false,
     workerName := workerName, caseName := caseName, stepName := res.getName,
     success := res.isSuccess, statusCode := res.getResponseCode, ts := 0 },
   { taskId := "", metricName := "step_call_integral", isWholeCase := false,
     workerName := workerName, caseName := caseName, stepName := res.getName,
     success := res.isSuccess, statusCode := res.getResponseCode, ts := 0 }]

/-- One entry of the aggregation map: a key and its sketch's samples. -/
abbrev AggEntries := List (CallTimeMapKey × List Int)

/-- `v := callTimeMap[key]; if v == nil { create }; v.Add(sample)`. -/
def addSample (entries : AggEntries) (k : CallTimeMapKey) (v : Int) :
    AggEntries :=
  if entries.any (fun e => e.1 = k) then
    entries.map (fun e => if e.1 = k then (e.1, e.2 ++ [v]) else e)
  else entries ++ [(k, [v])]

/-- Merging one record into the map: its latency is added under each of its
four keys. -/
def ingest (workerName caseName : String) (entries : AggEntries)
    (res : ResultV1) : AggEntries :=
  (recKeys workerName caseName res).foldl
    (fun es k => addSample es k (latency res)) entries

/-- Re-keying an emitted entry with the flush timestamp
(`outKey := k; outKey.Ts = ts`). -/
def stampTs (t : Int) (e : CallTimeMapKey × List Int) :
    CallTimeMapKey × List Int :=
  ({ e.1 with ts := t }, e.2)

/-- The fold coroutine's state: the live map, the last observed minute and
the batches emitted so far. -/
structure AggState where
  entries : AggEntries
  lastTs : Int
  emitted : List AggEntries

/-- Processing one received record, observed at wall-clock minute `ts`
(`HandleOuput` loop body): when the minute changed, every live entry is
emitted re-keyed with the previous minute, the batch is sent if non-empty,
and only the `_integral` entries survive; then the record is merged in. -/
def aggStep (workerName caseName : String) (st : AggState)
    (x : ResultV1 × Int) : AggState :=
  let st1 : AggState :=
    if st.lastTs ≠ x.2 then
      let metrics := st.entries.map (stampTs st.lastTs)
      { entries := st.entries.filter (fun e => isIntegral e.1),
        lastTs := x.2,
        emitted := if metrics.isEmpty then st.emitted
          else st.emitted ++ [metrics] }
    else st
  { st1 with
    entries := ingest workerName caseName st1.entries x.1 }

/-- The fold over the whole received stream, starting from the empty map
and the minute observed when `HandleOuput` starts. -/
def aggRun (workerName caseName : String) (initTs : Int)
    (trace : List (ResultV1 × Int)) : AggState :=
  trace.foldl (aggStep workerName caseName)
    { entries := [], lastTs := initTs, emitted := [] }

/-- The final flush after the channel closes (`HandleOuput` after the
`range` loop): every live entry is emitted re-keyed with the minute
observed at close, and the map is emptied. -/
def aggClose (st : AggState) (nowTs : Int) : AggState :=
  let metrics := st.entries.map (stampTs nowTs)
  { entries := [],
    lastTs := st.lastTs,
    emitted := if metrics.isEmpty then st.emitted
      else st.emitted ++ [metrics] }

/-! Spec-side vocabulary for the aggregator claims. -/

/-- The samples a key is responsible for within a stream segment: the
latency of every record among whose four keys `k` appears. -/
def matchingSamples (workerName caseName : String) (k : CallTimeMapKey)
    (trace : List (ResultV1 × Int)) : List Int :=
  trace.filterMap (fun x =>
    if k ∈ recKeys workerName caseName x.1 then some (latency x.1) else none)

/-- The current minute window: records since the last observed minute
change, mirroring the rollover condition of `aggStep`. -/
def winStep (s : Int × List (ResultV1 × Int)) (x : ResultV1 × Int) :
    Int × List (ResultV1 × Int) :=
  if s.1 ≠ x.2 then (x.2, [x]) else (s.1, s.2 ++ [x])

/-- The minute window (and its minute) left by a stream. -/
def window (initTs : Int) (trace : List (ResultV1 × Int)) :
    Int × List (ResultV1 × Int) :=
  trace.foldl winStep (initTs, [])

/-- The sketch stored under `k`: the samples of the first entry keyed `k`. -/
def lookupSketch (k : CallTimeMapKey) (entries : AggEntries) :
    Option (List Int) :=
  (entries.find? (fun e => e.1 = k)).map Prod.snd

/-- `some` of a segment's matching samples when there are any: a sketch
exists under a key exactly when a sample has been merged into it. -/
def sketchOf (workerName caseName : String) (k : CallTimeMapKey)
    (seg : List (ResultV1 × Int)) : Option (List Int) :=
  if matchingSamples workerName caseName k seg = [] then none
  else some (matchingSamples workerName caseName k seg)

/-! ## Association-list map lemmas -/

theorem mapHas_iff_find?_isSome (m : List (String × String)) (k : String) :
    mapHas m k = (m.find? (fun p => p.1 = k)).isSome := by
  induction m with
  | nil => rfl
  | cons p m ih =>
    by_cases hp : p.1 = k
    · simp [mapHas, List.find?, hp]
    · simpa [mapHas, List.find?, hp] using ih

theorem find?_mapSet_self (m : List (String × String)) (k v : String) :
    (mapSet m k v).find? (fun p => p.1 = k) = some (k, v) := by
  have hpre : ((fun p : String × String => decide (p.1 = k)) ∘
      (fun p : String × String => if p.1 = k then (p.1, v) else p)) =
      (fun p : String × String => decide (p.1 = k)) := by
    funext p; by_cases hp : p.1 = k <;> simp [hp]
  unfold mapSet
  by_cases hm : mapHas m k
  · rw [if_pos hm, List.find?_map, hpre]
    have hs : (m.find? (fun p => p.1 = k)).isSome := by
      rw [← mapHas_iff_find?_isSome]; exact hm
    obtain ⟨e, he⟩ := Option.isSome_iff_exists.mp hs
    have hek : e.1 = k := by simpa using List.find?_some he
    rw [he]
    simp [hek]
  · rw [if_neg hm, List.find?_append]
    have hn : m.find? (fun p => p.1 = k) = none := by
      cases hfe : m.find? (fun p => p.1 = k) with
      | none => rfl
      | some e => rw [mapHas_iff_find?_isSome, hfe] at hm; simp at hm
    simp [hn]

theorem find?_mapSet_ne (m : List (String × String)) (k k' v : String)
    (h : k' ≠ k) :
    (mapSet m k' v).find? (fun p => p.1 = k) = m.find? (fun p => p.1 = k) := by
  have hpre : ((fun p : String × String => decide (p.1 = k)) ∘
      (fun p : String × String => if p.1 = k' then (p.1, v) else p)) =
      (fun p : String × String => decide (p.1 = k)) := by
    funext p; by_cases hp : p.1 = k' <;> simp [hp]
  unfold mapSet
  by_cases hm : mapHas m k'
  · rw [if_pos hm, List.find?_map, hpre]
    cases hfe : m.find? (fun p => p.1 = k) with
    | none => rfl
    | some e =>
      have hek : e.1 = k := by simpa using List.find?_some hfe
      have : ¬e.1 = k' := by rw [hek]; exact fun hh => h hh.symm
      simp [this]
  · rw [if_neg hm, List.find?_append]
    simp [h]

theorem mapGet_mapSet_self (m : List (String × String)) (k v : String) :
    mapGet (mapSet m k v) k = v := by
  rw [mapGet, find?_mapSet_self]; rfl

theorem mapHas_mapSet_self (m : List (String × String)) (k v : String) :
    mapHas (mapSet m k v) k = true := by
  rw [mapHas_iff_find?_isSome, find?_mapSet_self]; rfl

theorem mapGet_mapSet_ne (m : List (String × String)) (k k' v : String)
    (h : k' ≠ k) : mapGet (mapSet m k' v) k = mapGet m k := by
  rw [mapGet, find?_mapSet_ne m k k' v h]; rfl

theorem mapHas_mapSet_ne (m : List (String × String)) (k k' v : String)
    (h : k' ≠ k) : mapHas (mapSet m k' v) k = mapHas m k := by
  rw [mapHas_iff_find?_isSome, find?_mapSet_ne m k k' v h,
    mapHas_iff_find?_isSome]

/-! ## Claim C1 — reserved keys in `reqParams` -/

/-- C1, counterexample: with the full `coroutineParams` map built by
`CaseRunner.Run` but a `GenReqParamsFunc` returning the empty map, the
`reqParams` handed to the plugin carries `__name`, `__goroutine_id` and
`__executor_index` but neither `__worker_total`, `__worker_index`,
`__worker_size` nor any `__worker_concurrency` key — so the claim that all
six reserved keys are always present in `reqParams` fails. -/
theorem claim1_counterexample :
    mapGet (buildReqParams []
        (coroutineParamsFor "c" 0 (CaseRunnerInfo.mk "w" 1 0 0 1 0 1)) "s")
      InnerVarName = "s" ∧
    mapHas (buildReqParams []
        (coroutineParamsFor "c" 0 (CaseRunnerInfo.mk "w" 1 0 0 1 0 1)) "s")
      InnerVarWorkerTotal = false ∧
    mapHas (buildReqParams []
        (coroutineParamsFor "c" 0 (CaseRunnerInfo.mk "w" 1 0 0 1 0 1)) "s")
      InnerVarWorkerIndex = false ∧
    mapHas (buildReqParams []
        (coroutineParamsFor "c" 0 (CaseRunnerInfo.mk "w" 1 0 0 1 0 1)) "s")
      "__worker_concurrency" = false ∧
    mapHas (coroutineParamsFor "c" 0 (CaseRunnerInfo.mk "w" 1 0 0 1 0 1))
      InnerVarWorkerTotal = true := by
  refine ⟨by decide, by decide, by decide, by decide, by decide⟩

/-- C1, amended: for every map returned by `GenReqParamsFunc` and every
`coroutineParams`, the `reqParams` passed to the plugin always carries
`__name = stepName` together with `__goroutine_id` and `__executor_index`
copied from `coroutineParams`; the worker-identity keys `__worker_total`,
`__worker_index` and `__worker_size` are present in the `coroutineParams`
map each executor is launched with, but are not injected into
`reqParams`. -/
theorem claim1_reserved_keys (gen cp : List (String × String))
    (stepName caseName : String) (i : Nat) (info : CaseRunnerInfo) :
    mapGet (buildReqParams gen cp stepName) InnerVarName = stepName ∧
    mapHas (buildReqParams gen cp stepName) InnerVarName = true ∧
    mapGet (buildReqParams gen cp stepName) InnerVarGoroutineId =
      mapGet cp InnerVarGoroutineId ∧
    mapHas (buildReqParams gen cp stepName) InnerVarGoroutineId = true ∧
    mapGet (buildReqParams gen cp stepName) InnerVarExecutorIndex =
      mapGet cp InnerVarExecutorIndex ∧
    mapHas (buildReqParams gen cp stepName) InnerVarExecutorIndex = true ∧
    mapGet (coroutineParamsFor caseName i info) InnerVarGoroutineId =
      caseName ++ "-" ++ toString i ∧
    mapGet (coroutineParamsFor caseName i info) InnerVarExecutorIndex =
      toString i ∧
    mapHas (coroutineParamsFor caseName i info) InnerVarWorkerTotal = true ∧
    mapHas (coroutineParamsFor caseName i info) InnerVarWorkerIndex = true ∧
    mapHas (coroutineParamsFor caseName i info) InnerVarWorkerSize = true := by
  have h1 : InnerVarGoroutineId ≠ InnerVarName := by decide
  have h2 : InnerVarExecutorIndex ≠ InnerVarName := by decide
  have h3 : InnerVarExecutorIndex ≠ InnerVarGoroutineId := by decide
  refine ⟨?_, ?_, ?_, ?_, ?_, ?_,
    by simp [coroutineParamsFor, mapGet, mapHas, InnerVarGoroutineId,
      InnerVarExecutorIndex, List.find?],
    by simp [coroutineParamsFor, mapGet, mapHas, InnerVarGoroutineId,
      InnerVarExecutorIndex, List.find?],
    by simp [coroutineParamsFor, mapGet, mapHas, InnerVarGoroutineId,
      InnerVarExecutorIndex, InnerVarWorkerTotal, List.find?],
    by simp [coroutineParamsFor, mapGet, mapHas, InnerVarGoroutineId,
      InnerVarExecutorIndex, InnerVarWorkerTotal, InnerVarWorkerIndex,
      List.find?],
    by simp [coroutineParamsFor, mapGet, mapHas, InnerVarGoroutineId,
      InnerVarExecutorIndex, InnerVarWorkerTotal, InnerVarWorkerIndex,
      InnerVarWorkerSize, List.find?]⟩
  · rw [buildReqParams, mapGet_mapSet_ne _ _ _ _ h2,
      mapGet_mapSet_ne _ _ _ _ h1, mapGet_mapSet_self]
  · rw [buildReqParams, mapHas_mapSet_ne _ _ _ _ h2,
      mapHas_mapSet_ne _ _ _ _ h1, mapHas_mapSet_self]
  · rw [buildReqParams, mapGet_mapSet_ne _ _ _ _ h3, mapGet_mapSet_self]
  · rw [buildReqParams, mapHas_mapSet_ne _ _ _ _ h3, mapHas_mapSet_self]
  · rw [buildReqParams, mapGet_mapSet_self]
  · rw [buildReqParams, mapHas_mapSet_self]

/-! ## Claim C3 — `End()` and the success flag -/

/-- C3, counterexample: the plugin sets `ResponseCode = 500`, writes
`Success = true` and then calls `End()`; the record does not keep the
written value — `End()` recomputes `Success` from the response code. -/
theorem claim3_counterexample :
    ((((acquireResult "s" 5 5).setResponseCode 500).setSuccess true).isSuccess
        = true) ∧
    (((((acquireResult "s" 5 5).setResponseCode 500).setSuccess true).recordEnd
        9).isSuccess = false) := by
  refine ⟨by decide, by decide⟩

/-- C3, amended: `End()` stamps the end time and sets `Success` to
`ResponseCode == 200` unconditionally — any success value written before
the `End()` call is discarded (the flag after `End()` depends only on the
response code), so a plugin override must happen after `End()`. -/
theorem claim3_end_success (r1 r2 : ResultV1) (t : Int)
    (h : r1.getResponseCode = r2.getResponseCode) :
    (r1.recordEnd t).isSuccess = (r2.recordEnd t).isSuccess ∧
    (r1.recordEnd t).isSuccess = decide (r1.getResponseCode = 200) ∧
    (r1.recordEnd t).getEndTime = t ∧
    (r1.recordEnd t).getBeginTime = r1.getBeginTime := by
  cases r1 with
  | mk n u m rh rb sb rc rsh rsb rcb fm s bt et subs si =>
    cases r2 with
    | mk n2 u2 m2 rh2 rb2 sb2 rc2 rsh2 rsb2 rcb2 fm2 s2 bt2 et2 subs2 si2 =>
      simp [ResultV1.recordEnd, ResultV1.isSuccess, ResultV1.getEndTime,
        ResultV1.getBeginTime, ResultV1.getResponseCode] at h ⊢
      rw [h]

/-- Witness for `claim3_end_success` at two concrete records sharing the
response code 200 but carrying opposite pre-`End()` success flags. -/
theorem claim3_end_success_witness :
    ((((acquireResult "a" 1 1).setResponseCode 200).setSuccess false).recordEnd
        7).isSuccess =
      ((((acquireResult "b" 2 2).setResponseCode 200).setSuccess true).recordEnd
        7).isSuccess ∧
    ((((acquireResult "a" 1 1).setResponseCode 200).setSuccess false).recordEnd
        7).isSuccess = decide
      ((((acquireResult "a" 1 1).setResponseCode 200).setSuccess
        false).getResponseCode = 200) :=
  have h := claim3_end_success
    (((acquireResult "a" 1 1).setResponseCode 200).setSuccess false)
    (((acquireResult "b" 2 2).setResponseCode 200).setSuccess true)
    7 (by decide)
  ⟨h.1, h.2.1⟩

/-! ## Claim C10 — `AcquireResult` defaults -/

/-- C10, counterexample: `AcquireResult` stamps `BeginTime` and `EndTime`
with two *separate* consecutive clock reads; when the millisecond clock
advances between them (here 5 then 6) the acquired record does not satisfy
`BeginTime = EndTime`. -/
theorem claim10_counterexample :
    (acquireResult "s" 5 6).getBeginTime ≠ (acquireResult "s" 5 6).getEndTime := by
  decide

/-- C10, amended: an acquired record carries `Success = true`,
`ResponseCode = 0`, `BeginTime` and `EndTime` stamped by the two
consecutive clock reads at acquisition (equal whenever the clock does not
advance between them), and no sub-results; consequently a plugin returning
it unchanged (no `End()` call) reports it as a single record whose four
aggregation keys all say `success = true` and `statusCode = 0`, with
latency `t2 - t1`. -/
theorem claim10_acquire (name wn cn : String) (t1 t2 : Int) :
    (acquireResult name t1 t2).isSuccess = true ∧
    (acquireResult name t1 t2).getResponseCode = 0 ∧
    (acquireResult name t1 t2).getBeginTime = t1 ∧
    (acquireResult name t1 t2).getEndTime = t2 ∧
    flattenResults (acquireResult name t1 t2) = [acquireResult name t1 t2] ∧
    latency (acquireResult name t1 t2) = t2 - t1 ∧
    ((recKeys wn cn (acquireResult name t1 t2)).all
      (fun k => k.success && (k.statusCode == 0))) = true := by
  refine ⟨rfl, rfl, rfl, rfl, rfl, rfl, ?_⟩
  simp [recKeys, acquireResult, ResultV1.isSuccess, ResultV1.getResponseCode,
    List.all]

/-! ## Machine-integer lemmas -/

theorem toInt64_eq_self (x : Int) (h1 : -(2 ^ 63) ≤ x) (h2 : x < 2 ^ 63) :
    toInt64 x = x := by
  rw [toInt64, Int.emod_eq_of_lt (by omega) (by omega)]
  omega

theorem toInt64_lb (x : Int) : -(2 ^ 63) ≤ toInt64 x := by
  rw [toInt64]
  have h1 : 0 ≤ (x + 2 ^ 63) % 2 ^ 64 := Int.emod_nonneg _ (by norm_num)
  omega

theorem toInt64_ub (x : Int) : toInt64 x < 2 ^ 63 := by
  rw [toInt64]
  have h1 : (x + 2 ^ 63) % 2 ^ 64 < 2 ^ 64 :=
    Int.emod_lt_of_pos _ (by norm_num)
  omega

theorem toUint64_cast (x : Int) (h1 : 0 ≤ x) (h2 : x < 2 ^ 64) :
    ((toUint64 x : Nat) : Int) = x := by
  rw [toUint64, Int.emod_eq_of_lt h1 h2, Int.toNat_of_nonneg h1]

theorem toUint64_natCast (n : Nat) (h : (n : Int) < 2 ^ 64) :
    toUint64 n = n := by
  have hc := toUint64_cast n (Int.natCast_nonneg n) h
  exact_mod_cast hc

theorem machineWindowCount_eq (w : Nat)
    (h : 1000000000 * (w : Int) < 2 ^ 63) : machineWindowCount w = w := by
  have h0 : (0 : Int) ≤ 1000000000 * (w : Int) := by positivity
  rw [machineWindowCount, toInt64_eq_self _ (by omega) h,
    Int.mul_tdiv_cancel_left _ (by norm_num)]
  exact toUint64_natCast w (by omega)

theorem rampBudget_eq (n r w : Nat) (h1 : n * w < 2 ^ 64)
    (h2 : 1000000000 * (w : Int) < 2 ^ 63) :
    rampBudget n r w = n * w / r := by
  rw [rampBudget, machineWindowCount_eq w h2, Nat.mod_eq_of_lt h1]

/-! ## Claim C4 — worker concurrency slice -/

/-- C4, counterexample: with `totalMaxConcurrency = 5`,
`workerConcurrency = 0` and worker index 0, the spec formula
`max(0, min(C, T − C·i))` gives 0, yet `RealRun` *does* start a Case
Runner (with concurrency 0) and marks the worker running, because its own
test is `remaining = T − C·i ≤ 0`. -/
theorem claim4_counterexample :
    realRunSlice 5 0 0 = some 0 ∧ effectiveSpec 5 0 0 = 0 := by
  refine ⟨by decide, by decide⟩

/-- C4, amended: within the `int64`-exact regime — assigned index
`i ≥ 0`, `T < 2^63`, `C < 2^63` and `C·i < 2^63`, so none of the
`uint64`/`int64` conversions or the `int64` arithmetic in `RealRun`
wraps — `RealRun` declines the case (starting no Case Runner and leaving
the worker unmarked) exactly when `T − C·i ≤ 0`, and whenever it does
start a Case Runner the concurrency it hands it equals the spec formula
`max(0, min(C, T − C·i))` (which is 0 only in the degenerate case
`C = 0`).  Outside that regime the wraps take over (a `C ≥ 2^63` is seen
as a negative `int64`). -/
theorem claim4_slice (totalMax workerConc : Nat) (widx : Int)
    (hi : 0 ≤ widx) (hT : (totalMax : Int) < 2 ^ 63)
    (hC : (workerConc : Int) < 2 ^ 63)
    (hP : (workerConc : Int) * widx < 2 ^ 63) :
    (realRunSlice totalMax workerConc widx = none ↔
      (totalMax : Int) - (workerConc : Int) * widx ≤ 0) ∧
    (∀ e, realRunSlice totalMax workerConc widx = some e →
      (e : Int) = effectiveSpec totalMax workerConc widx) := by
  have hT0 : (0 : Int) ≤ totalMax := Int.natCast_nonneg _
  have hC0 : (0 : Int) ≤ workerConc := Int.natCast_nonneg _
  have hP0 : (0 : Int) ≤ (workerConc : Int) * widx := mul_nonneg hC0 hi
  have e1 : toInt64 (totalMax : Int) = totalMax :=
    toInt64_eq_self _ (by omega) hT
  have e2 : toInt64 (workerConc : Int) = workerConc :=
    toInt64_eq_self _ (by omega) hC
  have e3 : toInt64 ((workerConc : Int) * widx) =
      (workerConc : Int) * widx := toInt64_eq_self _ (by omega) hP
  have e4 : toInt64 ((totalMax : Int) - (workerConc : Int) * widx) =
      (totalMax : Int) - (workerConc : Int) * widx :=
    toInt64_eq_self _ (by omega) (by omega)
  simp only [realRunSlice, effectiveSpec]
  rw [e2, e3, e1, e4]
  constructor
  · by_cases h : (totalMax : Int) - (workerConc : Int) * widx ≤ 0
    · simp [h]
    · simp [h]
      split <;> simp
  · intro e he
    by_cases h : (totalMax : Int) - (workerConc : Int) * widx ≤ 0
    · simp [h] at he
    · by_cases h2 : (totalMax : Int) - (workerConc : Int) * widx <
        (workerConc : Int)
      · simp [h, h2] at he
        have hcast := toUint64_cast
          ((totalMax : Int) - (workerConc : Int) * widx) (by omega) (by omega)
        omega
      · simp [h, h2] at he
        have hcast := toUint64_cast (workerConc : Int) (by omega) (by omega)
        omega

/-- Witness for `claim4_slice` at `T = 10`, `C = 4`, `i = 2`: the slice is
the partial remainder 2, matching the spec formula. -/
theorem claim4_slice_witness :
    realRunSlice 10 4 2 = some 2 ∧ ((2 : Nat) : Int) = effectiveSpec 10 4 2 :=
  ⟨by decide,
    (claim4_slice 10 4 2 (by decide) (by decide) (by decide)
      (by decide)).2 2 (by decide)⟩

/-! ## Claim C2 — sub-result flattening -/

/-- A record is strictly larger than each of its sub-results, so it never
occurs in its own `subResults` list. -/
theorem self_notMem_getSubResults (r : ResultV1) : r ∉ r.getSubResults := by
  cases r with
  | mk n u m rh rb sb rc rsh rsb rcb fm s bt et subs si =>
    intro hmem
    have h1 : sizeOf (ResultV1.mk n u m rh rb sb rc rsh rsb rcb fm s bt et
        subs si) < sizeOf subs :=
      List.sizeOf_lt_of_mem (by simpa [ResultV1.getSubResults] using hmem)
    have h2 : sizeOf subs < sizeOf (ResultV1.mk n u m rh rb sb rc rsh rsb rcb
        fm s bt et subs si) := by
      simp only [ResultV1.mk.sizeOf_spec]
      omega
    omega

/-- C2, counterexample: the plugin returns a parent whose single sub-record
itself carries a (one-level-deeper) sub-result; exactly that sub-record is
pushed — but it reaches the output channel with a *non-empty*
`subResults` list, so the claim's "no record pushed to the output channel
has a non-empty subResults list" fails (flattening is one level only). -/
theorem claim2_counterexample :
    flattenResults (ResultV1.mk "p" "" "" [] "" 0 200 [] "" 0 "" true 0 0
        [(acquireResult "sub" 0 0).addSub "" false 0 0] 0) =
      [(acquireResult "sub" 0 0).addSub "" false 0 0] ∧
    ((acquireResult "sub" 0 0).addSub "" false 0 0).getSubResults ≠ [] := by
  constructor
  · rfl
  · simp [acquireResult, ResultV1.addSub, ResultV1.getSubResults]

/-- C2, amended: for every record returned by an executed plugin
invocation, if its `subResults` list is empty the record itself is the one
record pushed; with `k ≥ 1` sub-results, the pushed records are exactly
those `k` sub-records — in order, with multiplicity — and the parent is
not among them; a pushed sub-record may however itself carry a non-empty
`subResults` list (the engine flattens exactly one level). -/
theorem claim2_flatten (res : ResultV1) :
    (res.getSubResults = [] → flattenResults res = [res]) ∧
    (res.getSubResults ≠ [] →
      flattenResults res = res.getSubResults ∧ res ∉ flattenResults res) := by
  constructor
  · intro h
    simp [flattenResults, h]
  · intro h
    have hne : res.getSubResults.isEmpty = false := by
      simpa [List.isEmpty_iff] using h
    refine ⟨by simp [flattenResults, hne], ?_⟩
    simp [flattenResults, hne]
    exact self_notMem_getSubResults res

/-- Witness for `claim2_flatten`: a parent with two sub-records; exactly
the two sub-records are reported and the parent is not among them. -/
theorem claim2_flatten_witness :
    flattenResults (ResultV1.mk "p" "" "" [] "" 0 200 [] "" 0 "" true 0 0
        [acquireResult "a" 0 0, acquireResult "b" 0 0] 0) =
      [acquireResult "a" 0 0, acquireResult "b" 0 0] ∧
    ResultV1.mk "p" "" "" [] "" 0 200 [] "" 0 "" true 0 0
        [acquireResult "a" 0 0, acquireResult "b" 0 0] 0 ∉
      flattenResults (ResultV1.mk "p" "" "" [] "" 0 200 [] "" 0 "" true 0 0
        [acquireResult "a" 0 0, acquireResult "b" 0 0] 0) :=
  have h := (claim2_flatten (ResultV1.mk "p" "" "" [] "" 0 200 [] "" 0 ""
    true 0 0 [acquireResult "a" 0 0, acquireResult "b" 0 0] 0)).2
    (by simp [ResultV1.getSubResults])
  ⟨h.1, h.2⟩

/-! ## Ramp-widening loop lemmas -/

theorem rampBudget_zero_left (r w : Nat) : rampBudget 0 r w = 0 := by
  simp [rampBudget]

theorem rampWiden_zero_left (r : Nat) :
    ∀ fuel w, rampWiden 0 r fuel w = none := by
  intro fuel
  induction fuel with
  | zero => intro w; rfl
  | succ fuel ih =>
    intro w
    rw [rampWiden, rampBudget_zero_left]
    simp only [Nat.lt_irrefl, if_false]
    exact ih (w + 1)

theorem rampWiden_div_zero (n : Nat) :
    ∀ fuel w, rampWiden n 0 fuel w = none := by
  intro fuel
  induction fuel with
  | zero => intro w; rfl
  | succ fuel ih =>
    intro w
    rw [rampWiden]
    simp only [rampBudget, Nat.div_zero, Nat.lt_irrefl, if_false]
    exact ih (w + 1)

theorem rampWiden_spec (n r : Nat) :
    ∀ fuel w0 w, rampWiden n r fuel w0 = some w →
      w0 ≤ w ∧ 0 < rampBudget n r w ∧
      ∀ w', w0 ≤ w' → w' < w → rampBudget n r w' = 0 := by
  intro fuel
  induction fuel with
  | zero => intro w0 w h; simp [rampWiden] at h
  | succ fuel ih =>
    intro w0 w h
    rw [rampWiden] at h
    by_cases hc : 0 < rampBudget n r w0
    · rw [if_pos hc] at h
      obtain rfl := Option.some.inj h
      refine ⟨Nat.le_refl _, hc, ?_⟩
      intro w' hw1 hw2
      exact absurd (Nat.lt_of_le_of_lt hw1 hw2) (Nat.lt_irrefl _)
    · rw [if_neg hc] at h
      obtain ⟨h1, h2, h3⟩ := ih (w0 + 1) w h
      refine ⟨by omega, h2, ?_⟩
      intro w' hw1 hw2
      by_cases hww : w' = w0
      · subst hww; exact Nat.eq_zero_of_not_pos hc
      · exact h3 w' (by omega) hw2

theorem rampWiden_isSome (n r : Nat) (hn : 1 ≤ n) (hr : 1 ≤ r)
    (hb1 : n * r < 2 ^ 64) (hb2 : 1000000000 * (r : Int) < 2 ^ 63) :
    ∀ fuel w0, w0 ≤ r → r < w0 + fuel →
      (rampWiden n r fuel w0).isSome = true := by
  intro fuel
  induction fuel with
  | zero => intro w0 h1 h2; omega
  | succ fuel ih =>
    intro w0 h1 h2
    rw [rampWiden]
    by_cases hc : 0 < rampBudget n r w0
    · simp [hc]
    · rw [if_neg hc]
      have hlt : w0 < r := by
        rcases Nat.lt_or_ge w0 r with h | h
        · exact h
        · exfalso
          have heq : w0 = r := Nat.le_antisymm h1 h
          subst heq
          have hbw : rampBudget n w0 w0 = n * w0 / w0 :=
            rampBudget_eq n w0 w0 hb1 hb2
          have hnn : n * w0 / w0 = n := Nat.mul_div_cancel n (by omega)
          omega
      exact ih (w0 + 1) (by omega) (by omega)

/-- Outside the exact regime the widening loop can be stuck even with a
positive concurrency: at `N = 2^32`, `R = 2^64 - 1` the wrapped `uint64`
product `N·w mod 2^64` is a multiple of `2^32` bounded by `2^64 - 2^32`,
so the machine budget is 0 for *every* window and the loop never exits. -/
theorem rampWiden_wrap_stuck :
    ∀ fuel w, rampWiden (2 ^ 32) (2 ^ 64 - 1) fuel w = none := by
  intro fuel
  induction fuel with
  | zero => intro w; rfl
  | succ fuel ih =>
    intro w
    have hz : rampBudget (2 ^ 32) (2 ^ 64 - 1) w = 0 := by
      rw [rampBudget]
      have hsplit : 2 ^ 32 * machineWindowCount w % 2 ^ 64 =
          2 ^ 32 * (machineWindowCount w % 2 ^ 32) := by
        have h64 : (2 ^ 64 : Nat) = 2 ^ 32 * 2 ^ 32 := by norm_num
        rw [h64, Nat.mul_mod_mul_left]
      rw [hsplit]
      apply Nat.div_eq_of_lt
      have hm : machineWindowCount w % 2 ^ 32 < 2 ^ 32 :=
        Nat.mod_lt _ (by norm_num)
      have hle : 2 ^ 32 * (machineWindowCount w % 2 ^ 32) ≤
          2 ^ 32 * (2 ^ 32 - 1) :=
        Nat.mul_le_mul_left _ (by omega)
      have hlit : 2 ^ 32 * (2 ^ 32 - 1) < 2 ^ 64 - 1 := by norm_num
      omega
    rw [rampWiden, hz]
    simp only [Nat.lt_irrefl, if_false]
    exact ih (w + 1)

/-! ## Claim C7 — ramp limiter configuration -/

/-- C7: with `RampingSeconds = 0` the ramp limiter is `(10000, 10 ms)`;
with `R > 0`, effective concurrency `N ≥ 1`, and the machine-exact regime
(`N·R < 2^64`, so the `uint64` product never wraps, and `10^9·R < 2^63`,
so the `int64`-nanosecond duration never overflows, up to the widest
window the loop can reach), the widening loop exits within `R` checks, and
whenever it settles on window `w` (necessarily `w ≤ R`) the limiter is
`⌊N·w/R⌋` launches per window of `w` whole seconds, `w` being the smallest
window (from 1 s, widening 1 s at a time) whose integer budget is
positive. -/
theorem claim7_ramp (n r : Nat) (hn : 1 ≤ n) (hb1 : n * r < 2 ^ 64)
    (hb2 : 1000000000 * (r : Int) < 2 ^ 63) :
    (∀ fuel, rampConfig n 0 fuel = some (10000, 10000000)) ∧
    (1 ≤ r → (rampWiden n r r 1).isSome = true) ∧
    (∀ fuel w, rampWiden n r fuel 1 = some w →
      w ≤ r ∧
      rampConfig n r fuel = some (n * w / r, 1000000000 * (w : Int)) ∧
      0 < n * w / r ∧ ∀ w', 1 ≤ w' → w' < w → n * w' / r = 0) := by
  refine ⟨fun fuel => by simp [rampConfig], ?_, ?_⟩
  · intro hr
    exact rampWiden_isSome n r hn hr hb1 hb2 r 1 hr (by omega)
  · intro fuel w he
    by_cases hr : r = 0
    · subst hr
      rw [rampWiden_div_zero n fuel 1] at he
      exact absurd he (by simp)
    · have hr1 : 1 ≤ r := Nat.one_le_iff_ne_zero.mpr hr
      obtain ⟨h1, h2, h3⟩ := rampWiden_spec n r fuel 1 w he
      have hwr : w ≤ r := by
        by_contra hgt
        push_neg at hgt
        have h0 : rampBudget n r r = 0 := h3 r hr1 hgt
        have hbr : rampBudget n r r = n * r / r := rampBudget_eq n r r hb1 hb2
        have hnn : n * r / r = n := Nat.mul_div_cancel n (by omega)
        omega
      have hwcast : (w : Int) ≤ (r : Int) := by exact_mod_cast hwr
      have hb1w : n * w < 2 ^ 64 :=
        Nat.lt_of_le_of_lt (Nat.mul_le_mul_left n hwr) hb1
      have hb2w : 1000000000 * (w : Int) < 2 ^ 63 := by omega
      refine ⟨hwr, ?_, ?_, ?_⟩
      · have hcfg : rampConfig n r fuel =
            some (rampBudget n r w, toInt64 (1000000000 * (w : Int))) := by
          simp [rampConfig, hr, he]
        rw [hcfg, rampBudget_eq n r w hb1w hb2w,
          toInt64_eq_self _ (by omega) hb2w]
      · rw [← rampBudget_eq n r w hb1w hb2w]
        exact h2
      · intro w' hw1 hw2
        have hw'r : w' ≤ r := Nat.le_trans (Nat.le_of_lt hw2) hwr
        have hb1w' : n * w' < 2 ^ 64 :=
          Nat.lt_of_le_of_lt (Nat.mul_le_mul_left n hw'r) hb1
        have hcast' : (w' : Int) ≤ (r : Int) := by exact_mod_cast hw'r
        have hb2w' : 1000000000 * (w' : Int) < 2 ^ 63 := by omega
        rw [← rampBudget_eq n r w' hb1w' hb2w']
        exact h3 w' hw1 hw2

/-- Witness for `claim7_ramp` at `N = 3`, `R = 7`: the loop settles on a
3-second window with budget `⌊9/7⌋ = 1`, and the `R = 0` case yields the
`(10000, 10 ms)` limiter. -/
theorem claim7_ramp_witness :
    rampConfig 3 0 9 = some (10000, 10000000) ∧
    rampConfig 3 7 7 = some (3 * 3 / 7, 1000000000 * ((3 : Nat) : Int)) ∧
    0 < 3 * 3 / 7 ∧ 3 * 2 / 7 = 0 ∧ (3 : Nat) ≤ 7 :=
  have h := claim7_ramp 3 7 (by decide) (by decide) (by decide)
  have h3 := h.2.2 7 3 (by decide)
  ⟨h.1 9, h3.2.1, h3.2.2.1, h3.2.2.2 2 (by decide) (by decide), h3.1⟩

/-! ## Claim C9 — widening-loop termination -/

/-- C9, counterexample: the Worker Runner does *not* always avoid a
zero-concurrency Case Runner — with `T = 3`, `C = 0`, `i = 0` the
remaining slice is positive, so `RealRun` starts a Case Runner whose
effective concurrency is 0, and with `R = 5 > 0` that runner's widening
loop makes no progress (here: no exit within 1000 checks). -/
theorem claim9_counterexample :
    realRunSlice 3 0 0 = some 0 ∧ rampWiden 0 5 1000 1 = none :=
  ⟨by decide, rampWiden_zero_left 5 1000 1⟩

/-- C9, amended: with `R > 0` and the machine-exact regime
(`N·R < 2^64`, `10^9·R < 2^63`) the widening loop exits within `R` checks
whenever the runner's concurrency `N ≥ 1`, and never exits when `N = 0`;
outside that regime `uint64`/duration wraparound can keep the budget at
zero for every window even with `N ≥ 1` (so it is stuck at, e.g.,
`N = 2^32`, `R = 2^64 − 1`).  The Worker Runner only guarantees `N ≥ 1`
when `workerConcurrency` lies in `[1, 2^63)` (its decline test
`remaining ≤ 0` then forces every started runner's slice to be at least
1); with `workerConcurrency = 0` it can still start a zero-concurrency
runner. -/
theorem claim9_termination :
    (∀ r fuel w, rampWiden 0 r fuel w = none) ∧
    (∀ (n r : Nat), 1 ≤ n → 1 ≤ r → n * r < 2 ^ 64 →
      1000000000 * (r : Int) < 2 ^ 63 →
      (rampWiden n r r 1).isSome = true) ∧
    (∀ fuel w, rampWiden (2 ^ 32) (2 ^ 64 - 1) fuel w = none) ∧
    (∀ (totalMax workerConc : Nat) (widx : Int) (e : Nat),
      1 ≤ workerConc → (workerConc : Int) < 2 ^ 63 →
      realRunSlice totalMax workerConc widx = some e → 1 ≤ e) := by
  refine ⟨fun r => rampWiden_zero_left r, ?_, rampWiden_wrap_stuck, ?_⟩
  · intro n r hn hr hb1 hb2
    exact rampWiden_isSome n r hn hr hb1 hb2 r 1 hr (by omega)
  · intro totalMax workerConc widx e hC1 hC2 he
    have hC0 : (0 : Int) ≤ workerConc := Int.natCast_nonneg _
    have e2 : toInt64 (workerConc : Int) = workerConc :=
      toInt64_eq_self _ (by omega) hC2
    simp only [realRunSlice, e2] at he
    have hub := toInt64_ub
      (toInt64 (totalMax : Int) - toInt64 ((workerConc : Int) * widx))
    have hlb := toInt64_lb
      (toInt64 (totalMax : Int) - toInt64 ((workerConc : Int) * widx))
    set rem := toInt64
      (toInt64 (totalMax : Int) - toInt64 ((workerConc : Int) * widx))
      with hrem
    by_cases h : rem ≤ 0
    · simp [h] at he
    · by_cases h2 : rem < (workerConc : Int)
      · simp [h, h2] at he
        have hcast := toUint64_cast rem (by omega) (by omega)
        omega
      · simp [h, h2] at he
        have hcast := toUint64_cast (workerConc : Int) (by omega) (by omega)
        omega

/-- Witness for `claim9_termination`: the `N = 0` loop is stuck after 50
checks, the exact-regime `N = 2`, `R = 3` loop exits within 3 checks, the
wrapped `N = 2^32`, `R = 2^64 − 1` loop is still stuck after 5 checks,
and the slice `realRunSlice 9 4 1 = some 4` is at least 1. -/
theorem claim9_termination_witness :
    rampWiden 0 3 50 1 = none ∧ (rampWiden 2 3 3 1).isSome = true ∧
    rampWiden (2 ^ 32) (2 ^ 64 - 1) 5 1 = none ∧ (1 : Nat) ≤ 4 :=
  have h := claim9_termination
  ⟨h.1 3 50 1,
    h.2.1 2 3 (by decide) (by decide) (by decide) (by decide),
    h.2.2.1 5 1,
    h.2.2.2 9 4 1 4 (by decide) (by decide) (by decide)⟩

/-! ## Claim C5 — iteration abort on failure -/

/-- C5: in any iteration of the step loop, if an executed step's reported
records contain a failure (`stepOk = false`) and its `ContinueWhenFailed`
is false, then that step is the last executed step of the iteration — no
later step runs — while its own records are still reported in full; and
every following iteration of the outer loop re-enters the step list at
step 0. -/
theorem claim5_iteration_abort (steps : List StepExec)
    (pre post : List (StepExec × List ResultV1)) (s : StepExec)
    (recs : List ResultV1)
    (h : runIteration steps = pre ++ (s, recs) :: post)
    (hok : stepOk recs = false) (hcwf : s.continueWhenFailed = false) :
    post = [] ∧ recs = flattenResults s.pluginResult ∧
    ∀ n, runCase steps (n + 1) = runCase steps n ++ runIteration steps := by
  refine ?_
  induction steps generalizing pre with
  | nil => simp [runIteration] at h
  | cons s0 rest ih =>
    rw [runIteration] at h
    by_cases hexec : s0.execWhen
    · rw [if_pos hexec] at h
      by_cases hbrk :
          (!stepOk (flattenResults s0.pluginResult) &&
            !s0.continueWhenFailed) = true
      · rw [if_pos hbrk] at h
        cases pre with
        | nil =>
          simp only [List.nil_append] at h
          obtain ⟨h1, h2⟩ := List.cons.inj h
          obtain ⟨rfl, rfl⟩ := Prod.mk.injEq .. ▸ h1
          exact ⟨h2.symm, rfl, fun n => rfl⟩
        | cons p pre' =>
          simp only [List.cons_append] at h
          obtain ⟨h1, h2⟩ := List.cons.inj h
          exact absurd h2.symm (List.append_ne_nil_of_right_ne_nil pre'
            (List.cons_ne_nil _ _))
      · rw [if_neg hbrk] at h
        cases pre with
        | nil =>
          simp only [List.nil_append] at h
          obtain ⟨h1, h2⟩ := List.cons.inj h
          obtain ⟨rfl, rfl⟩ := Prod.mk.injEq .. ▸ h1
          rw [hok, hcwf] at hbrk
          simp at hbrk
        | cons p pre' =>
          simp only [List.cons_append] at h
          obtain ⟨h1, h2⟩ := List.cons.inj h
          obtain ⟨hpost, hrecs, _⟩ := ih pre' h2
          exact ⟨hpost, hrecs, fun n => rfl⟩
    · rw [if_neg hexec] at h
      obtain ⟨hpost, hrecs, _⟩ := ih pre h
      exact ⟨hpost, hrecs, fun n => rfl⟩

/-- Witness for `claim5_iteration_abort`: two steps, the first failing with
`ContinueWhenFailed = false`; only the first step executes and its failed
record is still reported. -/
theorem claim5_iteration_abort_witness :
    (([] : List (StepExec × List ResultV1)) = []) ∧
    [(acquireResult "f" 0 0).setSuccess false] =
      flattenResults (StepExec.mk "s0" true
        ((acquireResult "f" 0 0).setSuccess false) false).pluginResult ∧
    ∀ n, runCase [StepExec.mk "s0" true
        ((acquireResult "f" 0 0).setSuccess false) false,
      StepExec.mk "s1" true (acquireResult "g" 0 0) false] (n + 1) =
      runCase [StepExec.mk "s0" true
        ((acquireResult "f" 0 0).setSuccess false) false,
      StepExec.mk "s1" true (acquireResult "g" 0 0) false] n ++
      runIteration [StepExec.mk "s0" true
        ((acquireResult "f" 0 0).setSuccess false) false,
      StepExec.mk "s1" true (acquireResult "g" 0 0) false] :=
  claim5_iteration_abort
    [StepExec.mk "s0" true ((acquireResult "f" 0 0).setSuccess false) false,
      StepExec.mk "s1" true (acquireResult "g" 0 0) false]
    [] []
    (StepExec.mk "s0" true ((acquireResult "f" 0 0).setSuccess false) false)
    [(acquireResult "f" 0 0).setSuccess false]
    (by rfl) (by rfl) (by rfl)

/-! ## Aggregation-map lemmas -/

theorem lookupSketch_addSample (es : AggEntries) (k k' : CallTimeMapKey)
    (v : Int) :
    lookupSketch k (addSample es k' v) =
      if k = k' then some ((lookupSketch k es).getD [] ++ [v])
      else lookupSketch k es := by
  have hpre : ((fun e : CallTimeMapKey × List Int => decide (e.1 = k)) ∘
      (fun e : CallTimeMapKey × List Int =>
        if e.1 = k' then (e.1, e.2 ++ [v]) else e)) =
      (fun e : CallTimeMapKey × List Int => decide (e.1 = k)) := by
    funext e; by_cases he : e.1 = k' <;> simp [he]
  unfold addSample
  by_cases hany : es.any (fun e => e.1 = k')
  · rw [if_pos hany, lookupSketch, List.find?_map, hpre]
    by_cases hk : k = k'
    · subst hk
      have hs : (es.find? (fun e => e.1 = k)).isSome := by
        rcases List.any_eq_true.mp hany with ⟨e, he1, he2⟩
        exact List.find?_isSome.mpr ⟨e, he1, he2⟩
      obtain ⟨e, he⟩ := Option.isSome_iff_exists.mp hs
      have hek : e.1 = k := by simpa using List.find?_some he
      rw [he]
      simp [lookupSketch, he, hek]
    · rw [if_neg hk]
      cases hfe : es.find? (fun e => e.1 = k) with
      | none => simp [lookupSketch, hfe]
      | some e =>
        have hek : e.1 = k := by simpa using List.find?_some hfe
        have hne : ¬e.1 = k' := by rw [hek]; exact hk
        simp [lookupSketch, hfe, hne]
  · rw [if_neg hany, lookupSketch, List.find?_append]
    have hnone : es.find? (fun e => e.1 = k') = none := by
      rw [List.find?_eq_none]
      intro e he hc
      exact hany (List.any_eq_true.mpr ⟨e, he, hc⟩)
    by_cases hk : k = k'
    · subst hk
      rw [hnone]
      simp [lookupSketch, hnone, List.find?]
    · have hsing : ([(k', [v])].find? (fun e => e.1 = k)) = none := by
        simp only [List.find?]
        have : ¬(k' = k) := fun hh => hk hh.symm
        simp [this]
      rw [hsing]
      simp [lookupSketch, hk]

theorem lookupSketch_foldl_addSample (v : Int) :
    ∀ (ks : List CallTimeMapKey), ks.Nodup → ∀ (es : AggEntries)
      (k : CallTimeMapKey),
      lookupSketch k (ks.foldl (fun es k' => addSample es k' v) es) =
        if k ∈ ks then some ((lookupSketch k es).getD [] ++ [v])
        else lookupSketch k es := by
  intro ks
  induction ks with
  | nil => intro _ es k; simp
  | cons k0 ks ih =>
    intro hnd es k
    have hnd' : ks.Nodup := (List.nodup_cons.mp hnd).2
    have hk0 : k0 ∉ ks := (List.nodup_cons.mp hnd).1
    rw [List.foldl_cons, ih hnd']
    by_cases hmem : k ∈ ks
    · have hne : k ≠ k0 := fun hh => hk0 (hh ▸ hmem)
      rw [lookupSketch_addSample, if_neg hne, if_pos hmem,
        if_pos (List.mem_cons_of_mem k0 hmem)]
    · rw [if_neg hmem, lookupSketch_addSample]
      by_cases hk : k = k0
      · rw [if_pos hk, if_pos (by simp [hk])]
      · rw [if_neg hk, if_neg (by simp [List.mem_cons, hk, hmem])]

theorem recKeys_nodup (wn cn : String) (res : ResultV1) :
    (recKeys wn cn res).Nodup := by
  simp [recKeys, List.nodup_cons, CallTimeMapKey.mk.injEq]

theorem lookupSketch_ingest (wn cn : String) (es : AggEntries)
    (res : ResultV1) (k : CallTimeMapKey) :
    lookupSketch k (ingest wn cn es res) =
      if k ∈ recKeys wn cn res then
        some ((lookupSketch k es).getD [] ++ [latency res])
      else lookupSketch k es := by
  rw [ingest, lookupSketch_foldl_addSample (latency res) (recKeys wn cn res)
    (recKeys_nodup wn cn res) es k]

theorem lookupSketch_filter_integral (es : AggEntries) (k : CallTimeMapKey) :
    lookupSketch k (es.filter (fun e => isIntegral e.1)) =
      if isIntegral k then lookupSketch k es else none := by
  induction es with
  | nil => by_cases h : isIntegral k <;> simp [lookupSketch, h]
  | cons p es ih =>
    by_cases hp : p.1 = k
    · by_cases hi : isIntegral k
      · have hpi : isIntegral p.1 = true := by rw [hp]; exact hi
        simp [lookupSketch, List.filter, List.find?, hp, hpi, hi]
      · have hpi : isIntegral p.1 = false := by
          rw [hp]; exact Bool.eq_false_iff.mpr hi
        rw [List.filter_cons, if_neg (by simp [hpi]), ih]
        simp [lookupSketch, List.find?, hp, hi]
    · have hskip : lookupSketch k (p :: es) = lookupSketch k es := by
        rw [lookupSketch, lookupSketch, List.find?_cons_of_neg _ (by simp [hp])]
      by_cases hpi : isIntegral p.1
      · have hskip2 : lookupSketch k
            (p :: List.filter (fun e => isIntegral e.1) es) =
            lookupSketch k (List.filter (fun e => isIntegral e.1) es) := by
          rw [lookupSketch, lookupSketch,
            List.find?_cons_of_neg _ (by simp [hp])]
        rw [List.filter_cons, if_pos (by simp [hpi]), hskip2, ih, hskip]
      · rw [List.filter_cons, if_neg (by simp [hpi]), ih, hskip]

theorem matchingSamples_append_singleton (wn cn : String)
    (k : CallTimeMapKey) (seg : List (ResultV1 × Int)) (x : ResultV1 × Int) :
    matchingSamples wn cn k (seg ++ [x]) =
      matchingSamples wn cn k seg ++
        (if k ∈ recKeys wn cn x.1 then [latency x.1] else []) := by
  rw [matchingSamples, matchingSamples, List.filterMap_append]
  by_cases h : k ∈ recKeys wn cn x.1 <;> simp [h]

theorem sketchOf_append_singleton (wn cn : String) (k : CallTimeMapKey)
    (seg : List (ResultV1 × Int)) (x : ResultV1 × Int) :
    sketchOf wn cn k (seg ++ [x]) =
      if k ∈ recKeys wn cn x.1 then
        some ((sketchOf wn cn k seg).getD [] ++ [latency x.1])
      else sketchOf wn cn k seg := by
  rw [sketchOf, sketchOf, matchingSamples_append_singleton]
  by_cases h : k ∈ recKeys wn cn x.1
  · rw [if_pos h, if_pos h]
    by_cases hm : matchingSamples wn cn k seg = []
    · simp [hm]
    · simp [hm]
  · rw [if_neg h, if_neg h]
    simp

theorem sketchOf_nil (wn cn : String) (k : CallTimeMapKey) :
    sketchOf wn cn k [] = none := by
  simp [sketchOf, matchingSamples]

theorem aggStep_of_eq (wn cn : String) (st : AggState) (x : ResultV1 × Int)
    (h : st.lastTs = x.2) :
    aggStep wn cn st x = { st with
      entries := ingest wn cn st.entries x.1 } := by
  simp [aggStep, h]

theorem aggStep_of_ne (wn cn : String) (st : AggState) (x : ResultV1 × Int)
    (h : st.lastTs ≠ x.2) :
    aggStep wn cn st x =
      { entries := ingest wn cn
          (st.entries.filter (fun e => isIntegral e.1)) x.1,
        lastTs := x.2,
        emitted := if (st.entries.map (stampTs st.lastTs)).isEmpty
          then st.emitted
          else st.emitted ++ [st.entries.map (stampTs st.lastTs)] } := by
  simp [aggStep, h]

theorem winStep_of_eq (s : Int × List (ResultV1 × Int)) (x : ResultV1 × Int)
    (h : s.1 = x.2) : winStep s x = (s.1, s.2 ++ [x]) := by
  simp [winStep, h]

theorem winStep_of_ne (s : Int × List (ResultV1 × Int)) (x : ResultV1 × Int)
    (h : s.1 ≠ x.2) : winStep s x = (x.2, [x]) := by
  simp [winStep, h]

/-- The fold-loop invariant of `HandleOuput`: after consuming any stream
segment, the `_integral` sketches hold exactly the matching samples of the
whole history, the other sketches exactly the matching samples of the
current minute window, the window's records all carry the last observed
minute, and the window is a suffix of the history. -/
theorem aggFold_invariant (wn cn : String) :
    ∀ (trace : List (ResultV1 × Int)) (st : AggState)
      (hist w : List (ResultV1 × Int)),
      (∀ k, isIntegral k = true →
        lookupSketch k st.entries = sketchOf wn cn k hist) →
      (∀ k, isIntegral k = false →
        lookupSketch k st.entries = sketchOf wn cn k w) →
      (∀ x ∈ w, x.2 = st.lastTs) →
      w.IsSuffix hist →
      (∀ k, isIntegral k = true →
        lookupSketch k (trace.foldl (aggStep wn cn) st).entries =
          sketchOf wn cn k (hist ++ trace)) ∧
      (∀ k, isIntegral k = false →
        lookupSketch k (trace.foldl (aggStep wn cn) st).entries =
          sketchOf wn cn k (trace.foldl winStep (st.lastTs, w)).2) ∧
      (∀ x ∈ (trace.foldl winStep (st.lastTs, w)).2,
        x.2 = (trace.foldl (aggStep wn cn) st).lastTs) ∧
      (trace.foldl winStep (st.lastTs, w)).2.IsSuffix (hist ++ trace) := by
  intro trace
  induction trace with
  | nil =>
    intro st hist w hI hN hw hsuf
    exact ⟨by simpa using hI, by simpa using hN, by simpa using hw,
      by simpa using hsuf⟩
  | cons x rest ih =>
    intro st hist w hI hN hw hsuf
    rw [List.foldl_cons, List.foldl_cons]
    by_cases hts : st.lastTs = x.2
    · rw [aggStep_of_eq wn cn st x hts, winStep_of_eq (st.lastTs, w) x hts]
      have happ := ih { st with entries := ingest wn cn st.entries x.1 }
        (hist ++ [x]) (w ++ [x])
        (fun k hik => by
          rw [lookupSketch_ingest, sketchOf_append_singleton, hI k hik])
        (fun k hnk => by
          rw [lookupSketch_ingest, sketchOf_append_singleton, hN k hnk])
        (fun y hy => by
          rcases List.mem_append.mp hy with hy' | hy'
          · exact hw y hy'
          · rw [List.mem_singleton.mp hy']
            exact hts.symm)
        (by
          obtain ⟨p, hp⟩ := hsuf
          exact ⟨p, by rw [← List.append_assoc, hp]⟩)
      simpa using happ
    · rw [aggStep_of_ne wn cn st x hts, winStep_of_ne (st.lastTs, w) x hts]
      have happ := ih
        { entries := ingest wn cn
            (st.entries.filter (fun e => isIntegral e.1)) x.1,
          lastTs := x.2,
          emitted := if (st.entries.map (stampTs st.lastTs)).isEmpty
            then st.emitted
            else st.emitted ++ [st.entries.map (stampTs st.lastTs)] }
        (hist ++ [x]) [x]
        (fun k hik => by
          rw [lookupSketch_ingest, lookupSketch_filter_integral, if_pos hik,
            sketchOf_append_singleton, hI k hik])
        (fun k hnk => by
          have hx := sketchOf_append_singleton wn cn k [] x
          rw [List.nil_append] at hx
          rw [lookupSketch_ingest, lookupSketch_filter_integral, hx,
            sketchOf_nil]
          simp [hnk])
        (fun y hy => by
          have hyx : y = x := List.mem_singleton.mp hy
          rw [hyx])
        ⟨hist, rfl⟩
      simpa using happ

/-! ## Claim C6 — minute rollover and sketch coverage -/

/-- C6: (a) whenever the fold loop observes a record in a new minute, it
emits every live sketch re-keyed with the previous observed minute (one
batch, sent only when non-empty) and keeps exactly the entries whose
metric name ends in `_integral`, then merges the record; (b) consequently,
after any consumed stream, every `_integral` sketch holds exactly the
matching samples of the entire case run while every other sketch holds
exactly the matching samples of the current minute window — a suffix of
the stream all observed in the last minute; (c) when the input channel
closes, every live sketch is emitted once more, re-keyed with the minute
observed at close. -/
theorem claim6_aggregator (wn cn : String) (initTs finalTs : Int)
    (trace : List (ResultV1 × Int)) :
    (∀ (st : AggState) (res : ResultV1) (ts : Int), st.lastTs ≠ ts →
      (aggStep wn cn st (res, ts)).emitted =
        st.emitted ++ (if st.entries.isEmpty then []
          else [st.entries.map (stampTs st.lastTs)]) ∧
      (aggStep wn cn st (res, ts)).entries =
        ingest wn cn (st.entries.filter (fun e => isIntegral e.1)) res ∧
      (aggStep wn cn st (res, ts)).lastTs = ts) ∧
    (∀ k, isIntegral k = true →
      lookupSketch k (aggRun wn cn initTs trace).entries =
        sketchOf wn cn k trace) ∧
    (∀ k, isIntegral k = false →
      lookupSketch k (aggRun wn cn initTs trace).entries =
        sketchOf wn cn k (window initTs trace).2) ∧
    (∀ x ∈ (window initTs trace).2,
      x.2 = (aggRun wn cn initTs trace).lastTs) ∧
    (window initTs trace).2.IsSuffix trace ∧
    (aggClose (aggRun wn cn initTs trace) finalTs).emitted =
      (aggRun wn cn initTs trace).emitted ++
        (if (aggRun wn cn initTs trace).entries.isEmpty then []
         else [(aggRun wn cn initTs trace).entries.map (stampTs finalTs)]) := by
  have hrun := aggFold_invariant wn cn trace
    { entries := [], lastTs := initTs, emitted := [] } [] []
    (fun k _ => by rw [sketchOf_nil]; simp [lookupSketch])
    (fun k _ => by rw [sketchOf_nil]; simp [lookupSketch])
    (by simp)
    ⟨[], rfl⟩
  refine ⟨?_, ?_, ?_, ?_, ?_, ?_⟩
  · intro st res ts h
    rw [aggStep_of_ne wn cn st (res, ts) h]
    refine ⟨?_, rfl, rfl⟩
    by_cases he : st.entries.isEmpty
    · simp [List.isEmpty_iff] at he
      simp [he]
    · simp [List.isEmpty_iff] at he
      simp [he]
  · intro k hik
    have := hrun.1 k hik
    simpa [aggRun, window] using this
  · intro k hnk
    have := hrun.2.1 k hnk
    simpa [aggRun, window] using this
  · intro x hx
    have := hrun.2.2.1 x (by simpa [window] using hx)
    simpa [aggRun, window] using this
  · have := hrun.2.2.2
    simpa [aggRun, window] using this
  · rw [aggClose]
    by_cases he : (aggRun wn cn initTs trace).entries.isEmpty
    · simp [List.isEmpty_iff] at he
      simp [he]
    · simp [List.isEmpty_iff] at he
      simp [he]

/-- A concrete measured record: acquired, `ResponseCode = 200`, ended at
millisecond 4 (latency 3 ms, success true). -/
def wtRecord : ResultV1 :=
  ((acquireResult "s" 1 1).setResponseCode 200).recordEnd 4

/-- A concrete two-record stream crossing a minute boundary (minute 0,
then minute 1). -/
def wtTrace : List (ResultV1 × Int) := [(wtRecord, 0), (wtRecord, 1)]

/-- The per-step `_integral` key of `wtRecord`. -/
def wtKeyIntegral : CallTimeMapKey :=
  { taskId := "", metricName := "step_call_integral", isWholeCase := false,
    workerName := "w", caseName := "c", stepName := "s", success := true,
    statusCode := 200, ts := 0 }

/-- The per-step minute-window key of `wtRecord`. -/
def wtKeyMinute : CallTimeMapKey :=
  { taskId := "", metricName := "step_call", isWholeCase := false,
    workerName := "w", caseName := "c", stepName := "s", success := true,
    statusCode := 200, ts := 0 }

/-- Witness for `claim6_aggregator`: over `wtTrace` the `_integral` sketch
accumulates both samples, the minute sketch holds only the second minute's
sample, and the rollover step adopts the new minute. -/
theorem claim6_aggregator_witness :
    lookupSketch wtKeyIntegral (aggRun "w" "c" 0 wtTrace).entries =
      some [3, 3] ∧
    lookupSketch wtKeyMinute (aggRun "w" "c" 0 wtTrace).entries =
      some [3] ∧
    (aggStep "w" "c" (aggRun "w" "c" 0 [(wtRecord, 0)])
      (wtRecord, 1)).lastTs = 1 :=
  have h := claim6_aggregator "w" "c" 0 7 wtTrace
  ⟨Eq.trans (h.2.1 wtKeyIntegral (by decide)) (by decide),
    Eq.trans (h.2.2.1 wtKeyMinute (by decide)) (by decide),
    (h.1 (aggRun "w" "c" 0 [(wtRecord, 0)]) wtRecord 1 (by decide)).2.2⟩
